import Mathlib

/-!
Verification development for the `syncdirs` directory synchronizer.

The Python sources (`Watcher.py`, `ConflictResolver.py`, `FileOperations.py`,
`SyncManager.py`, `main.py`) are shallowly embedded below: paths are lists of
path components, filesystem contents and modification times are explicit
data, dictionaries become association lists, and the thread-pool tasks of a
sync session become an explicit task list.  External effects (whether a copy
or delete succeeds, which file a conflict resolver picks, the operator's
manual choices) are supplied by environment records so that every embedded
function is a pure, executable Lean definition.
-/

set_option autoImplicit false

namespace Syncdirs

/-- A filesystem path, as a list of path components.  `os.path.join a b`
becomes list append and `os.path.dirname p` becomes `p.dropLast`. -/
abbrev Path := List String

/-- First-match lookup in an association list; models a Python `dict`
read (`d[k]` / `k in d`), whose keys are unique. -/
def alookup {α : Type} : List (Path × α) → Path → Option α
  | [], _ => none
  | (k, v) :: rest, p => if k = p then some v else alookup rest p

/-- Replace the value at a key, leaving the list unchanged when the key is
absent; models an in-place Python `dict` update of an existing key. -/
def aupdate {α : Type} : List (Path × α) → Path → α → List (Path × α)
  | [], _, _ => []
  | (k, v) :: rest, p, v' =>
      if k = p then (k, v') :: rest else (k, v) :: aupdate rest p v'

/-- Set a key: update it when present, append it when absent; models
`d[k] = v` on a Python `dict`. -/
def aset {α : Type} (l : List (Path × α)) (p : Path) (v : α) : List (Path × α) :=
  if (alookup l p).isSome then aupdate l p v else l ++ [(p, v)]

theorem alookup_append_single {α : Type} (l : List (Path × α)) (q p : Path) (v : α)
    (h : p ≠ q) : alookup (l ++ [(q, v)]) p = alookup l p := by
  induction l with
  | nil =>
      have hq : ¬ q = p := fun h' => h h'.symm
      simp [alookup, hq]
  | cons hd tl ih =>
      obtain ⟨k, w⟩ := hd
      by_cases hk : k = p <;> simp [alookup, hk, ih]

theorem alookup_aupdate_ne {α : Type} (l : List (Path × α)) (q p : Path) (v : α)
    (h : p ≠ q) : alookup (aupdate l q v) p = alookup l p := by
  induction l with
  | nil => rfl
  | cons hd tl ih =>
      obtain ⟨k, w⟩ := hd
      by_cases hkq : k = q
      · subst hkq
        have hkp : ¬ k = p := fun h' => h h'.symm
        simp [aupdate, alookup, hkp]
      · by_cases hkp : k = p <;> simp [aupdate, alookup, hkq, hkp, h, ih]

theorem mem_keys_of_alookup {α : Type} : ∀ (l : List (Path × α)) (p : Path) (r : α),
    alookup l p = some r → p ∈ l.map Prod.fst
  | [], p, r, h => by simp [alookup] at h
  | (k, w) :: tl, p, r, h => by
      by_cases hk : k = p
      · rw [List.map_cons]
        exact hk ▸ List.mem_cons_self k (tl.map Prod.fst)
      · have h' : alookup tl p = some r := by
          simp only [alookup] at h
          rwa [if_neg hk] at h
        rw [List.map_cons]
        exact List.mem_cons_of_mem k (mem_keys_of_alookup tl p r h')

/-! ## Watcher (`src/Watcher.py`)

`Watcher.scan_directories` walks a directory, hashes every file, diffs
against `self.file_metadata` (the snapshot) and returns the change set.
The walk is embedded as a list of `DiskFile`s (the files `os.walk` yields,
in walk order, with their current content hash and mtime); the snapshot is
an association list from path to stored hash/mtime.  Per-file I/O errors
(caught and skipped in the source) are not injected: the embedding models a
scan in which every file is read successfully. -/

structure FileRecord where
  hash : String
  last_modified : Int
deriving DecidableEq

/-- The watcher's `file_metadata` dictionary. -/
abbrev Snapshot := List (Path × FileRecord)

/-- One regular file found on disk during the walk, with its current
content hash and modification timestamp. -/
structure DiskFile where
  path : Path
  hash : String
  mtime : Int
deriving DecidableEq

/-- The change classifications produced by a scan (`'created'`,
`'modified'`, `'deleted'` strings in the source). -/
inductive ChangeKind
  | created
  | modified
  | deleted
deriving DecidableEq

/-- The per-file loop of `scan_directories` (lines 70-104): each walked
file is hashed and classified against the snapshot, which is updated in
place for created and modified files and left untouched when the hash is
unchanged (even when the mtime differs). -/
def scanWalk : Snapshot → List DiskFile → Snapshot × List (Path × ChangeKind)
  | meta, [] => (meta, [])
  | meta, f :: rest =>
      match alookup meta f.path with
      | none =>
          ((scanWalk (meta ++ [(f.path, ⟨f.hash, f.mtime⟩)]) rest).1,
           (f.path, ChangeKind.created) ::
             (scanWalk (meta ++ [(f.path, ⟨f.hash, f.mtime⟩)]) rest).2)
      | some old =>
          if f.hash ≠ old.hash then
            ((scanWalk (aupdate meta f.path ⟨f.hash, f.mtime⟩) rest).1,
             (f.path, ChangeKind.modified) ::
               (scanWalk (aupdate meta f.path ⟨f.hash, f.mtime⟩) rest).2)
          else
            scanWalk meta rest

/-- `Watcher.scan_directories`: the walk loop followed by the deleted-file
pass (lines 106-113): every tracked path no longer on disk is classified
deleted and removed from the snapshot.  Returns the updated snapshot and
the change set. -/
def scan_directories (meta : Snapshot) (disk : List DiskFile) :
    Snapshot × List (Path × ChangeKind) :=
  ((scanWalk meta disk).1.filter
     (fun e => decide (e.1 ∈ disk.map DiskFile.path)),
   (scanWalk meta disk).2 ++
     (((scanWalk meta disk).1.map Prod.fst).filter
        (fun p => decide (p ∉ disk.map DiskFile.path))).map
       (fun p => (p, ChangeKind.deleted)))

/-! ## ConflictResolver (`src/ConflictResolver.py`)

`resolve_conflict` validates its input (at least two candidates, all of
which must exist), dispatches on the policy, and logs the resolution on
success.  `_resolve_by_timestamp` sorts the candidates by modification
time with Python's stable `list.sort(key, reverse=True)`, embedded as a
stable descending insertion sort.  `_resolve_manually` re-prompts the
operator until a choice in `[1, n]` arrives; the operator's answers are an
infinite stream and the re-prompt loop is run with explicit fuel, `none`
modelling the loop never receiving valid input. -/

inductive ResolutionPolicy
  | newestWins
  | manual
deriving DecidableEq

/-- The exceptions `resolve_conflict` can raise: `ValueError` for fewer
than two candidates, `FileNotFoundError` for a missing candidate. -/
inductive ResolveErr
  | valueError
  | fileNotFoundError
deriving DecidableEq

/-- Stable descending insertion step: an element moves left past strictly
older entries only, so equal timestamps keep their original order, exactly
as Python's stable `sort(key, reverse=True)` behaves. -/
def insertDesc (x : Path × Int) : List (Path × Int) → List (Path × Int)
  | [] => [x]
  | y :: ys => if x.2 < y.2 then y :: insertDesc x ys else x :: y :: ys

/-- Stable descending sort by timestamp (`files_with_times.sort(key=lambda
x: x[1], reverse=True)`). -/
def sortDesc : List (Path × Int) → List (Path × Int)
  | [] => []
  | x :: xs => insertDesc x (sortDesc xs)

/-- `ConflictResolver._resolve_by_timestamp`: pair each candidate with its
mtime, sort descending, winner is the head, losers the tail.  `none` only
when the candidate list is empty (where the source would raise an
IndexError; `resolve_conflict` guarantees at least two candidates). -/
def resolve_by_timestamp (mtime : Path → Int) (files : List Path) :
    Option (Path × List Path) :=
  match sortDesc (files.map fun f => (f, mtime f)) with
  | [] => none
  | w :: rest => some (w.1, rest.map Prod.fst)

/-- `ConflictResolver._resolve_manually`: keep prompting until the
operator supplies a choice in `[1, len(files)]`; the winner is the chosen
file, the losers all files different from it.  `choices` is the operator's
answer stream and `fuel` bounds the unrolling of the re-prompt loop
(`none` = the loop never terminates). -/
def resolve_manually (files : List Path) : Nat → (Nat → Nat) → Option (Path × List Path)
  | 0, _ => none
  | fuel + 1, choices =>
      let c := choices 0
      if 1 ≤ c ∧ c ≤ files.length then
        let winner := files.getD (c - 1) []
        some (winner, files.filter (fun f => decide (f ≠ winner)))
      else
        resolve_manually files fuel (fun n => choices (n + 1))

/-- `ConflictResolver.log_resolution`: the audit-log lines written after a
successful resolution. -/
def log_resolution (files : List Path) (winner : Path) (pol : ResolutionPolicy) :
    List String :=
  ["Conflict Resolution:"]
    ++ files.map (fun f => "File: " ++ String.intercalate "/" f)
    ++ ["Winner: " ++ String.intercalate "/" winner,
        "Resolution Policy: " ++ (if pol = ResolutionPolicy.newestWins
          then "newest_file_wins" else "manual")]

/-- The environment a resolution runs in: which paths exist, their
modification times, and the operator's answer stream with its fuel. -/
structure ResolverEnv where
  pathExists : Path → Bool
  mtime : Path → Int
  choices : Nat → Nat
  fuel : Nat

/-- `ConflictResolver.resolve_conflict`: validation, policy dispatch, then
logging.  The result pairs the outcome (winner and losers, or the raised
exception) with the audit-log lines emitted by the call; the outer `none`
models a manual resolution that never receives valid input. -/
def resolve_conflict (pol : ResolutionPolicy) (env : ResolverEnv) (files : List Path) :
    Option (Except ResolveErr (Path × List Path) × List String) :=
  if files.length < 2 then
    some (Except.error ResolveErr.valueError, [])
  else if ¬ files.all env.pathExists then
    some (Except.error ResolveErr.fileNotFoundError, [])
  else
    match pol with
    | ResolutionPolicy.newestWins =>
        match resolve_by_timestamp env.mtime files with
        | some wl => some (Except.ok wl, log_resolution files wl.1 pol)
        | none => none
    | ResolutionPolicy.manual =>
        match resolve_manually files env.fuel env.choices with
        | some wl => some (Except.ok wl, log_resolution files wl.1 pol)
        | none => none

/-! ## FileOperations (`src/FileOperations.py`)

The filesystem is a table of regular files (content bytes, mtime,
permissions) plus the set of existing directories.  `copy_file` is
embedded step for step: missing source short-circuits to `False`;
`os.makedirs(dirname(target), exist_ok=True)`; the full source byte
stream is read and written to the target — the bytes that actually land on
disk are produced by the environment's `writeResult` oracle (identity on a
fault-free filesystem, anything else models a silent short write); the
size check runs only under `log_level == "debug"`; `shutil.copystat`
transfers mtime and permissions.  Exceptions in the source are caught and
turned into `False`; the embedding models runs in which no exception is
raised, so every operation is total. -/

structure FSFile where
  content : List Nat
  mtime : Int
  perms : Nat
deriving DecidableEq

structure FS where
  files : List (Path × FSFile)
  dirs : List Path
deriving DecidableEq

structure CopyEnv where
  logLevel : String
  writeResult : List Nat → List Nat
  newMtime : Int
  newPerms : Nat

/-- `os.makedirs(d, exist_ok=True)` restricted to the directory itself. -/
def makedirs (fs : FS) (d : Path) : FS :=
  if d ∈ fs.dirs then fs else { fs with dirs := fs.dirs ++ [d] }

/-- `FileOperations.copy_file` (lines 22-81): returns the success flag and
the filesystem after the call. -/
def copy_file (env : CopyEnv) (fs : FS) (source target : Path) : Bool × FS :=
  match alookup fs.files source with
  | none => (false, fs)
  | some src =>
      let fs1 := makedirs fs target.dropLast
      let written := env.writeResult src.content
      let fs2 : FS :=
        { fs1 with files := aset fs1.files target ⟨written, env.newMtime, env.newPerms⟩ }
      if env.logLevel = "debug" ∧ written.length ≠ src.content.length then
        (false, fs2)
      else
        (true,
         { fs2 with files := aset fs2.files target ⟨written, src.mtime, src.perms⟩ })

/-! ## SyncManager (`src/SyncManager.py`)

A sync session processes each `(rel_path, change_type)` of the change set:
updates go through `_handle_file_update` (existence check, conflict
resolution, copy-task submission), deletions through
`_handle_file_deletion`.  Submitted copy/delete tasks run on the session's
thread pool and touch only the statistics counters, always through
`_increment_stat`; since the counters commute, the session is embedded as
a sequential fold that also records the submitted task list.  The
conflict resolver and the copy/delete outcomes are supplied by a `SyncEnv`
(the resolver's `ValueError`/`FileNotFoundError` become `Except.error`,
which `sync_files` observes as a failed future). -/

/-- The `sync_stats` dictionary of a `SyncManager`. -/
structure SyncStats where
  files_synced : Nat
  files_deleted : Nat
  conflicts_resolved : Nat
  failed_operations : Nat
  start_time : Option Int
  end_time : Option Int
deriving DecidableEq

/-- The four counters of `sync_stats` that `_increment_stat` mutates. -/
inductive StatName
  | filesSynced
  | filesDeleted
  | conflictsResolved
  | failedOperations
deriving DecidableEq

/-- Read one counter. -/
def counterOf (s : SyncStats) : StatName → Nat
  | StatName.filesSynced => s.files_synced
  | StatName.filesDeleted => s.files_deleted
  | StatName.conflictsResolved => s.conflicts_resolved
  | StatName.failedOperations => s.failed_operations

/-- `SyncManager._increment_stat`: the only mutation of the four counters
in the source; under `_stats_lock` it adds exactly one to the named
counter. -/
def increment_stat (s : SyncStats) : StatName → SyncStats
  | StatName.filesSynced => { s with files_synced := s.files_synced + 1 }
  | StatName.filesDeleted => { s with files_deleted := s.files_deleted + 1 }
  | StatName.conflictsResolved => { s with conflicts_resolved := s.conflicts_resolved + 1 }
  | StatName.failedOperations => { s with failed_operations := s.failed_operations + 1 }

/-- A task submitted to the session's thread pool: `_copy_file source
target` or `_delete_file target rel`. -/
inductive SyncTask
  | copyT (src dst : Path)
  | deleteT (target : Path) (rel : Path)
deriving DecidableEq

/-- Environment of one sync session: which target paths exist, what the
conflict resolver answers (`.error` = it raised), and whether each copy or
delete succeeds (`FileOperations.copy_file` / `delete_file` returning
`True`/`False`; a caught I/O error is a `false` outcome). -/
structure SyncEnv where
  pathExists : Path → Bool
  resolveWinner : List Path → Except ResolveErr Path
  copyOutcome : Path → Path → Bool
  deleteOutcome : Path → Bool
  now1 : Int
  now2 : Int

/-- `SyncManager._handle_file_update` (lines 145-181): compute the target
paths that already exist; with no existing copy, submit source→target
copies for every target; otherwise resolve the conflict on the source plus
the existing copies, count it, and submit source→targets if the source
won, else winner→source plus winner→(every target except the winner).
Returns the updated stats and the submitted copy pairs (or the resolver's
exception, which propagates). -/
def handle_file_update (env : SyncEnv) (stats : SyncStats) (source_path : Path)
    (target_paths : List Path) :
    SyncStats × Except ResolveErr (List (Path × Path)) :=
  if target_paths.filter env.pathExists = [] then
    (stats, Except.ok (target_paths.map fun t => (source_path, t)))
  else
    match env.resolveWinner (source_path :: target_paths.filter env.pathExists) with
    | Except.error e => (stats, Except.error e)
    | Except.ok winner =>
        if winner = source_path then
          (increment_stat stats StatName.conflictsResolved,
           Except.ok (target_paths.map fun t => (source_path, t)))
        else
          (increment_stat stats StatName.conflictsResolved,
           Except.ok ((winner, source_path) ::
             (target_paths.filter (fun t => decide (t ≠ winner))).map fun t => (winner, t)))

/-- `SyncManager._handle_file_deletion` (lines 192-200): submit one delete
task per target path. -/
def handle_file_deletion (target_paths : List Path) (rel : Path) : List SyncTask :=
  target_paths.map fun t => SyncTask.deleteT t rel

/-- `SyncManager._process_change` (lines 126-143): dispatch on the change
type; exceptions propagate to the future collected in `sync_files`. -/
def process_change (env : SyncEnv) (stats : SyncStats) (kind : ChangeKind)
    (source_path : Path) (target_paths : List Path) (rel : Path) :
    SyncStats × Except ResolveErr (List SyncTask) :=
  match kind with
  | ChangeKind.created =>
      ((handle_file_update env stats source_path target_paths).1,
       (handle_file_update env stats source_path target_paths).2.map
         fun ps => ps.map fun p => SyncTask.copyT p.1 p.2)
  | ChangeKind.modified =>
      ((handle_file_update env stats source_path target_paths).1,
       (handle_file_update env stats source_path target_paths).2.map
         fun ps => ps.map fun p => SyncTask.copyT p.1 p.2)
  | ChangeKind.deleted =>
      (stats, Except.ok (handle_file_deletion target_paths rel))

/-- Execution of one pool task: `_copy_file` increments `files_synced`
when `FileOperations.copy_file` returns `True`; `_delete_file` increments
`files_deleted` when the delete returns `True`.  A `False` outcome only
skips the increment. -/
def run_task (env : SyncEnv) (stats : SyncStats) : SyncTask → SyncStats
  | SyncTask.copyT s t =>
      if env.copyOutcome s t then increment_stat stats StatName.filesSynced else stats
  | SyncTask.deleteT t _ =>
      if env.deleteOutcome t then increment_stat stats StatName.filesDeleted else stats

/-- One iteration of the `sync_files` loop for a single change: build the
absolute paths, process the change, count a raised exception in
`failed_operations` (the `future.result()` handler, lines 110-118), run
the submitted tasks, and extend the session's task list. -/
def sync_step (env : SyncEnv) (source_dir : Path) (target_dirs : List Path) :
    SyncStats × List SyncTask → Path × ChangeKind → SyncStats × List SyncTask
  | (stats, tasks), (rel, kind) =>
      match process_change env stats kind (source_dir ++ rel)
          (target_dirs.map fun d => d ++ rel) rel with
      | (stats1, Except.error _) =>
          (increment_stat stats1 StatName.failedOperations, tasks)
      | (stats1, Except.ok ts) =>
          (ts.foldl (run_task env) stats1, tasks ++ ts)

/-- `SyncManager.sync_files` (lines 77-124): stamp `start_time`, process
every change of the set (collecting the pool tasks each submits and
executing them), stamp `end_time`.  Returns the final statistics and the
full list of submitted copy/delete tasks of the session. -/
def sync_files (env : SyncEnv) (source_dir : Path) (target_dirs : List Path)
    (changes : List (Path × ChangeKind)) (stats0 : SyncStats) :
    SyncStats × List SyncTask :=
  ({ (changes.foldl (sync_step env source_dir target_dirs)
        ({ stats0 with start_time := some env.now1 }, [])).1 with
      end_time := some env.now2 },
   (changes.foldl (sync_step env source_dir target_dirs)
      ({ stats0 with start_time := some env.now1 }, [])).2)

/-! ## Watch-loop coordination (`src/main.py`)

`DirectorySynchronizer._watch_directory` runs one loop per replica.  Each
iteration: under `sync_condition`, wait while `is_syncing`; release the
lock; scan the directory; if the scan found changes, re-acquire the lock,
set `is_syncing = True`, and run `_handle_changes` (the sync session),
whose `finally` clears the flag and notifies all waiters.  The interleaved
execution of two such loops is embedded as a transition system: `check`
models passing the wait loop (only enabled while `is_syncing` is false)
followed by the lock-free scan that finds changes, `begin` models lines
97-99 (set the flag, enter `_handle_changes`) — enabled whenever the
thread has finished its scan, with no re-check of the flag — and `finish`
models the `finally` block.  An action whose guard fails leaves the state
unchanged (the thread is blocked or not at that point). -/

/-- Position of one watcher thread in its loop body. -/
inductive WState
  | idle
  | scanned
  | syncing
deriving DecidableEq

/-- Shared state of two concurrent `_watch_directory` loops. -/
structure CoordState where
  pc1 : WState
  pc2 : WState
  is_syncing : Bool
deriving DecidableEq

/-- Scheduler actions: which thread executes its next program step. -/
inductive WatchAct
  | check1
  | begin1
  | finish1
  | check2
  | begin2
  | finish2
deriving DecidableEq

/-- One interleaved step of the two watcher loops, as read off
`_watch_directory` (lines 79-106) and `_handle_changes` (lines 134-141). -/
def watch_step (s : CoordState) : WatchAct → CoordState
  | WatchAct.check1 =>
      if s.pc1 = WState.idle ∧ s.is_syncing = false
      then { s with pc1 := WState.scanned } else s
  | WatchAct.begin1 =>
      if s.pc1 = WState.scanned
      then { s with pc1 := WState.syncing, is_syncing := true } else s
  | WatchAct.finish1 =>
      if s.pc1 = WState.syncing
      then { s with pc1 := WState.idle, is_syncing := false } else s
  | WatchAct.check2 =>
      if s.pc2 = WState.idle ∧ s.is_syncing = false
      then { s with pc2 := WState.scanned } else s
  | WatchAct.begin2 =>
      if s.pc2 = WState.scanned
      then { s with pc2 := WState.syncing, is_syncing := true } else s
  | WatchAct.finish2 =>
      if s.pc2 = WState.syncing
      then { s with pc2 := WState.idle, is_syncing := false } else s

/-- Run a schedule of interleaved steps. -/
def watch_run (s : CoordState) (l : List WatchAct) : CoordState :=
  l.foldl watch_step s

/-- Both watcher threads at the top of their loops, no session active. -/
def coordInit : CoordState :=
  { pc1 := WState.idle, pc2 := WState.idle, is_syncing := false }

/-! ## Concrete environments used to evaluate the embedding -/

/-- A session environment in which no target path exists and every copy
and delete fails. -/
def c4Env : SyncEnv :=
  { pathExists := fun _ => false
    resolveWinner := fun _ => Except.error ResolveErr.valueError
    copyOutcome := fun _ _ => false
    deleteOutcome := fun _ => false
    now1 := 0
    now2 := 1 }

/-- Fresh statistics, as set up in `SyncManager.__init__`. -/
def stats0c : SyncStats :=
  { files_synced := 0, files_deleted := 0, conflicts_resolved := 0
    failed_operations := 0, start_time := none, end_time := none }

/-- A copy environment with default (`basic`) logging whose write lands no
bytes on disk — a silent short write. -/
def faultyCopyEnv : CopyEnv :=
  { logLevel := "basic", writeResult := fun _ => [], newMtime := 11, newPerms := 13 }

/-- A copy environment with `debug` logging and a fault-free write. -/
def debugCopyEnv : CopyEnv :=
  { logLevel := "debug", writeResult := id, newMtime := 3, newPerms := 4 }

/-- A one-file filesystem: `s` holds three bytes. -/
def cexFS : FS := { files := [(["s"], ⟨[1, 2, 3], 5, 7⟩)], dirs := [] }

/-- A one-file filesystem used by the copy witnesses. -/
def wFS : FS := { files := [(["s"], ⟨[9], 1, 2⟩)], dirs := [] }

/-- Modification times 10/30/20 for candidates `a`/`b`/`c`. -/
def mtimeW : Path → Int :=
  fun p => if p = ["b"] then 30 else if p = ["c"] then 20 else 10

/-- A session environment in which exactly `T1/f` exists and the resolver
always picks `T1/f`. -/
def c3Env : SyncEnv :=
  { pathExists := fun p => decide (p = ["T1", "f"])
    resolveWinner := fun _ => Except.ok ["T1", "f"]
    copyOutcome := fun _ _ => true
    deleteOutcome := fun _ => true
    now1 := 0
    now2 := 1 }

/-! ## Further association-list and filesystem lemmas -/

theorem alookup_append_self {α : Type} (l : List (Path × α)) (p : Path) (v : α)
    (h : alookup l p = none) : alookup (l ++ [(p, v)]) p = some v := by
  induction l with
  | nil => simp [alookup]
  | cons hd tl ih =>
      obtain ⟨k, w⟩ := hd
      by_cases hk : k = p
      · simp [alookup, hk] at h
      · simp [alookup, hk] at h ⊢
        exact ih h

theorem alookup_aupdate_self {α : Type} (l : List (Path × α)) (p : Path) (v : α)
    (h : (alookup l p).isSome) : alookup (aupdate l p v) p = some v := by
  induction l with
  | nil => simp [alookup] at h
  | cons hd tl ih =>
      obtain ⟨k, w⟩ := hd
      by_cases hk : k = p
      · simp [aupdate, alookup, hk]
      · simp [aupdate, alookup, hk] at h ⊢
        exact ih h

theorem alookup_aset_self {α : Type} (l : List (Path × α)) (p : Path) (v : α) :
    alookup (aset l p v) p = some v := by
  unfold aset
  by_cases h : (alookup l p).isSome
  · simp [h, alookup_aupdate_self l p v h]
  · have hn : alookup l p = none := by
      cases he : alookup l p with
      | none => rfl
      | some w => rw [he] at h; simp at h
    simp [h, alookup_append_self l p v hn]

theorem mem_makedirs_dirs (fs : FS) (d : Path) : d ∈ (makedirs fs d).dirs := by
  unfold makedirs
  by_cases h : d ∈ fs.dirs <;> simp [h]

/-! ## C1 -/

/-- C1: the claimed global mutual exclusion of sync sessions fails on the
code.  In `_watch_directory` the wait on `is_syncing` and the later
`is_syncing = True` are separate acquisitions of `sync_condition`, with
the lock-free scan between them and no re-check of the flag before setting
it.  Under the schedule check1, check2, begin1, begin2 — both watchers
pass the wait while no session is active, both scans find changes, then
both set the flag and enter `_handle_changes` — the embedded transition
system reaches a state in which both watcher threads are inside a sync
session at once, refuting the property that every other watcher waits
until the session-active flag clears. -/
theorem C1_concurrent_sessions :
    ((watch_run coordInit
        [WatchAct.check1, WatchAct.check2, WatchAct.begin1, WatchAct.begin2]).pc1 =
          WState.syncing ∧
     (watch_run coordInit
        [WatchAct.check1, WatchAct.check2, WatchAct.begin1, WatchAct.begin2]).pc2 =
          WState.syncing) ∧
    ¬ (∀ l : List WatchAct,
        ¬ ((watch_run coordInit l).pc1 = WState.syncing ∧
           (watch_run coordInit l).pc2 = WState.syncing)) := by
  refine ⟨by decide, fun hall => ?_⟩
  exact hall [WatchAct.check1, WatchAct.check2, WatchAct.begin1, WatchAct.begin2]
    (by decide)

/-! ## C8 -/

/-- C8: a sync call with an empty change set submits no copy and no delete
task and leaves the four statistics counters at their prior values (only
the start/end timestamps of the session are stamped). -/
theorem C8_empty_sync (env : SyncEnv) (source_dir : Path) (target_dirs : List Path)
    (stats0 : SyncStats) :
    (sync_files env source_dir target_dirs [] stats0).2 = [] ∧
    ∀ n : StatName,
      counterOf (sync_files env source_dir target_dirs [] stats0).1 n =
        counterOf stats0 n := by
  refine ⟨rfl, fun n => ?_⟩
  cases n <;> rfl

/-! ## C10 -/

/-- C10: when the source path does not exist, `copy_file` returns `False`
before touching the filesystem — the destination is neither created nor
modified and no directory is created.  (In the source the existence check
precedes `makedirs` and the write, and the function's only failure mode is
the returned `False`; exceptions are caught and also become `False`.) -/
theorem C10_copy_missing_source (env : CopyEnv) (fs : FS) (source target : Path)
    (h : alookup fs.files source = none) :
    copy_file env fs source target = (false, fs) := by
  unfold copy_file
  rw [h]

/-- Witness for C10 at a concrete empty filesystem. -/
theorem C10_witness :
    copy_file faultyCopyEnv { files := [], dirs := [] } ["s"] ["d", "t"] =
      (false, { files := [], dirs := [] }) :=
  C10_copy_missing_source faultyCopyEnv { files := [], dirs := [] } ["s"] ["d", "t"] rfl

/-! ## C5 -/

/-- Unfolding of `copy_file` when the source exists. -/
theorem copy_file_some (env : CopyEnv) (fs : FS) (source target : Path) (src : FSFile)
    (h : alookup fs.files source = some src) :
    copy_file env fs source target =
      (if env.logLevel = "debug" ∧
          (env.writeResult src.content).length ≠ src.content.length then
        (false,
         { files := aset (makedirs fs target.dropLast).files target
             ⟨env.writeResult src.content, env.newMtime, env.newPerms⟩
           dirs := (makedirs fs target.dropLast).dirs })
      else
        (true,
         { files := aset
             (aset (makedirs fs target.dropLast).files target
               ⟨env.writeResult src.content, env.newMtime, env.newPerms⟩)
             target ⟨env.writeResult src.content, src.mtime, src.perms⟩
           dirs := (makedirs fs target.dropLast).dirs })) := by
  unfold copy_file
  rw [h]

/-- C5 counterexample: with the default `basic` log level a copy whose
write lands zero of the source's three bytes is still reported as a
success — `copy_file` performs no size verification outside `debug`
logging, refuting "reporting failure (not success) whenever the sizes
mismatch". -/
theorem C5_counterexample :
    (copy_file faultyCopyEnv cexFS ["s"] ["d", "t"]).1 = true ∧
    alookup (copy_file faultyCopyEnv cexFS ["s"] ["d", "t"]).2.files ["d", "t"] =
      some ⟨[], 5, 7⟩ ∧
    alookup cexFS.files ["s"] = some ⟨[1, 2, 3], 5, 7⟩ ∧
    ([] : List Nat).length ≠ [1, 2, 3].length := by
  decide

/-- C5 as amended: when the source exists, `copy_file` ensures the
destination parent directory exists, writes the source's full byte stream
(the bytes landing on disk are the write oracle's output, the stream
itself on a fault-free filesystem), and on success transfers the source's
modification time and permissions (`shutil.copystat`); the size
verification runs only under `debug` logging, where a mismatch is
reported as failure. -/
theorem C5_amended (env : CopyEnv) (fs : FS) (source target : Path) (src : FSFile)
    (h : alookup fs.files source = some src) :
    ((copy_file env fs source target).1 = true →
       target.dropLast ∈ (copy_file env fs source target).2.dirs ∧
       alookup (copy_file env fs source target).2.files target =
         some ⟨env.writeResult src.content, src.mtime, src.perms⟩) ∧
    (env.logLevel = "debug" →
       (env.writeResult src.content).length ≠ src.content.length →
       (copy_file env fs source target).1 = false) := by
  rw [copy_file_some env fs source target src h]
  by_cases hc : env.logLevel = "debug" ∧
      (env.writeResult src.content).length ≠ src.content.length
  · rw [if_pos hc]
    exact ⟨fun habs => absurd habs (by simp), fun _ _ => rfl⟩
  · rw [if_neg hc]
    refine ⟨fun _ => ⟨mem_makedirs_dirs fs target.dropLast, alookup_aset_self _ target _⟩,
            fun hdbg hlen => absurd ⟨hdbg, hlen⟩ hc⟩

/-- Witness for C5 as amended, at a `debug`-level fault-free copy of a
one-byte file. -/
theorem C5_amended_witness :
    ((copy_file debugCopyEnv wFS ["s"] ["d", "t"]).1 = true →
       ["d"] ∈ (copy_file debugCopyEnv wFS ["s"] ["d", "t"]).2.dirs ∧
       alookup (copy_file debugCopyEnv wFS ["s"] ["d", "t"]).2.files ["d", "t"] =
         some ⟨[9], 1, 2⟩) ∧
    ("debug" = "debug" → ([9] : List Nat).length ≠ ([9] : List Nat).length →
       (copy_file debugCopyEnv wFS ["s"] ["d", "t"]).1 = false) :=
  C5_amended debugCopyEnv wFS ["s"] ["d", "t"] ⟨[9], 1, 2⟩ rfl

/-! ## C4 -/

theorem run_task_failed (env : SyncEnv) (s : SyncStats) (t : SyncTask) :
    (run_task env s t).failed_operations = s.failed_operations := by
  cases t with
  | copyT a b =>
      by_cases h : env.copyOutcome a b <;> simp [run_task, h, increment_stat]
  | deleteT a r =>
      by_cases h : env.deleteOutcome a <;> simp [run_task, h, increment_stat]

theorem foldl_run_task_failed (env : SyncEnv) (ts : List SyncTask) :
    ∀ s : SyncStats, (ts.foldl (run_task env) s).failed_operations = s.failed_operations := by
  induction ts with
  | nil => intro s; rfl
  | cons t ts ih => intro s; rw [List.foldl_cons, ih, run_task_failed]

/-- The outcome (submitted copies or raised exception) of
`_handle_file_update` does not depend on the statistics it threads. -/
theorem handle_file_update_snd (env : SyncEnv) (s s' : SyncStats) (sp : Path)
    (tp : List Path) :
    (handle_file_update env s sp tp).2 = (handle_file_update env s' sp tp).2 := by
  unfold handle_file_update
  by_cases h : tp.filter env.pathExists = []
  · simp [h]
  · simp only [if_neg h]
    cases env.resolveWinner (sp :: tp.filter env.pathExists) with
    | error e => rfl
    | ok w => by_cases hw : w = sp <;> simp [hw]

/-- `_handle_file_update` never touches `failed_operations`. -/
theorem handle_file_update_failed (env : SyncEnv) (s : SyncStats) (sp : Path)
    (tp : List Path) :
    (handle_file_update env s sp tp).1.failed_operations = s.failed_operations := by
  unfold handle_file_update
  by_cases h : tp.filter env.pathExists = []
  · simp [h]
  · simp only [if_neg h]
    cases env.resolveWinner (sp :: tp.filter env.pathExists) with
    | error e => rfl
    | ok w => by_cases hw : w = sp <;> simp [hw, increment_stat]

theorem process_change_snd (env : SyncEnv) (s s' : SyncStats) (k : ChangeKind)
    (sp : Path) (tp : List Path) (rel : Path) :
    (process_change env s k sp tp rel).2 = (process_change env s' k sp tp rel).2 := by
  cases k with
  | created => simp only [process_change]; rw [handle_file_update_snd env s s' sp tp]
  | modified => simp only [process_change]; rw [handle_file_update_snd env s s' sp tp]
  | deleted => rfl

theorem process_change_failed (env : SyncEnv) (s : SyncStats) (k : ChangeKind)
    (sp : Path) (tp : List Path) (rel : Path) :
    (process_change env s k sp tp rel).1.failed_operations = s.failed_operations := by
  cases k with
  | created => exact handle_file_update_failed env s sp tp
  | modified => exact handle_file_update_failed env s sp tp
  | deleted => rfl

/-- `_handle_file_update` reads only the existence oracle and the conflict
resolver from its environment. -/
theorem handle_file_update_env_indep (pe : Path → Bool)
    (rsv : List Path → Except ResolveErr Path) (co co' : Path → Path → Bool)
    (dl dl' : Path → Bool) (n1 n2 n1' n2' : Int) (s : SyncStats) (sp : Path)
    (tp : List Path) :
    handle_file_update ⟨pe, rsv, co, dl, n1, n2⟩ s sp tp =
      handle_file_update ⟨pe, rsv, co', dl', n1', n2'⟩ s sp tp := rfl

theorem process_change_env_indep (pe : Path → Bool)
    (rsv : List Path → Except ResolveErr Path) (co co' : Path → Path → Bool)
    (dl dl' : Path → Bool) (n1 n2 n1' n2' : Int) (s : SyncStats) (k : ChangeKind)
    (sp : Path) (tp : List Path) (rel : Path) :
    process_change ⟨pe, rsv, co, dl, n1, n2⟩ s k sp tp rel =
      process_change ⟨pe, rsv, co', dl', n1', n2'⟩ s k sp tp rel := by
  cases k <;> rfl

/-- The task list a session submits and its `failed_operations` count do
not depend on the copy/delete outcomes: a failing copy or delete neither
aborts anything nor is counted. -/
theorem sync_fold_outcome_indep (pe : Path → Bool)
    (rsv : List Path → Except ResolveErr Path) (co co' : Path → Path → Bool)
    (dl dl' : Path → Bool) (n1 n2 : Int) (sd : Path) (td : List Path) :
    ∀ (changes : List (Path × ChangeKind)) (s s' : SyncStats) (ts : List SyncTask),
      s.failed_operations = s'.failed_operations →
      ((changes.foldl (sync_step ⟨pe, rsv, co, dl, n1, n2⟩ sd td) (s, ts)).2 =
         (changes.foldl (sync_step ⟨pe, rsv, co', dl', n1, n2⟩ sd td) (s', ts)).2 ∧
       (changes.foldl (sync_step ⟨pe, rsv, co, dl, n1, n2⟩ sd td)
           (s, ts)).1.failed_operations =
         (changes.foldl (sync_step ⟨pe, rsv, co', dl', n1, n2⟩ sd td)
             (s', ts)).1.failed_operations)
  | [], s, s', ts, hf => ⟨rfl, hf⟩
  | (rel, kind) :: rest, s, s', ts, hf => by
      rw [List.foldl_cons, List.foldl_cons]
      have hsnd : (process_change ⟨pe, rsv, co', dl', n1, n2⟩ s' kind (sd ++ rel)
            (td.map fun d => d ++ rel) rel).2 =
          (process_change ⟨pe, rsv, co, dl, n1, n2⟩ s kind (sd ++ rel)
            (td.map fun d => d ++ rel) rel).2 := by
        rw [← process_change_env_indep pe rsv co co' dl dl' n1 n2 n1 n2 s' kind
              (sd ++ rel) (td.map fun d => d ++ rel) rel]
        exact process_change_snd _ s' s kind _ _ rel
      cases hpc : process_change ⟨pe, rsv, co, dl, n1, n2⟩ s kind (sd ++ rel)
          (td.map fun d => d ++ rel) rel with
      | mk st1 r =>
          cases hpc' : process_change ⟨pe, rsv, co', dl', n1, n2⟩ s' kind (sd ++ rel)
              (td.map fun d => d ++ rel) rel with
          | mk st1' r' =>
              have hrr : r' = r := by rw [hpc, hpc'] at hsnd; exact hsnd
              have hst1 : st1.failed_operations = s.failed_operations := by
                have hh := process_change_failed ⟨pe, rsv, co, dl, n1, n2⟩ s kind
                  (sd ++ rel) (td.map fun d => d ++ rel) rel
                rw [hpc] at hh; exact hh
              have hst1' : st1'.failed_operations = s'.failed_operations := by
                have hh := process_change_failed ⟨pe, rsv, co', dl', n1, n2⟩ s' kind
                  (sd ++ rel) (td.map fun d => d ++ rel) rel
                rw [hpc'] at hh; exact hh
              rw [hrr] at hpc'
              cases r with
              | error e =>
                  simp only [sync_step, hpc, hpc']
                  exact sync_fold_outcome_indep pe rsv co co' dl dl' n1 n2 sd td rest
                    _ _ ts (by simp [increment_stat, hst1, hst1', hf])
              | ok l =>
                  simp only [sync_step, hpc, hpc']
                  exact sync_fold_outcome_indep pe rsv co co' dl dl' n1 n2 sd td rest
                    _ _ (ts ++ l)
                    (by rw [foldl_run_task_failed, foldl_run_task_failed, hst1, hst1', hf])

/-- C4 counterexample: a session with one created file whose single copy
task fails (`FileOperations.copy_file` returns `False`).  The copy task
was submitted and ran, its failure skipped the `files_synced` increment,
and `failed_operations` stayed at zero — refuting "every per-item I/O
failure ... is counted in the session's failedOperations statistic"
(`_copy_file` has no failure branch and the copy futures are never
awaited). -/
theorem C4_counterexample :
    (sync_files c4Env ["S"] [["T"]] [(["f"], ChangeKind.created)] stats0c).2 =
      [SyncTask.copyT ["S", "f"] ["T", "f"]] ∧
    c4Env.copyOutcome ["S", "f"] ["T", "f"] = false ∧
    (sync_files c4Env ["S"] [["T"]]
        [(["f"], ChangeKind.created)] stats0c).1.failed_operations = 0 ∧
    (sync_files c4Env ["S"] [["T"]]
        [(["f"], ChangeKind.created)] stats0c).1.files_synced = 0 := by
  decide

/-- C4 as amended: a per-item copy or delete failure never aborts the
session — the submitted task list is identical under any copy/delete
outcomes, so every sibling task still runs — but such failures are not
counted either: `failed_operations` is likewise identical under any
outcomes (only an exception escaping a change-processing task, e.g. a
conflict-resolution error, increments it). -/
theorem C4_amended (pe : Path → Bool) (rsv : List Path → Except ResolveErr Path)
    (co co' : Path → Path → Bool) (dl dl' : Path → Bool) (n1 n2 : Int)
    (source_dir : Path) (target_dirs : List Path)
    (changes : List (Path × ChangeKind)) (stats0 : SyncStats) :
    (sync_files ⟨pe, rsv, co, dl, n1, n2⟩ source_dir target_dirs changes stats0).2 =
      (sync_files ⟨pe, rsv, co', dl', n1, n2⟩ source_dir target_dirs changes stats0).2 ∧
    (sync_files ⟨pe, rsv, co, dl, n1, n2⟩ source_dir target_dirs changes
        stats0).1.failed_operations =
      (sync_files ⟨pe, rsv, co', dl', n1, n2⟩ source_dir target_dirs changes
          stats0).1.failed_operations := by
  have h := sync_fold_outcome_indep pe rsv co co' dl dl' n1 n2 source_dir target_dirs
    changes { stats0 with start_time := some n1 } { stats0 with start_time := some n1 }
    [] rfl
  exact ⟨h.1, h.2⟩

/-! ## C9 -/

theorem counterOf_le_increment (s : SyncStats) (m n : StatName) :
    counterOf s n ≤ counterOf (increment_stat s m) n := by
  cases m <;> cases n <;> simp [increment_stat, counterOf]

theorem counterOf_le_run_task (env : SyncEnv) (s : SyncStats) (t : SyncTask)
    (n : StatName) : counterOf s n ≤ counterOf (run_task env s t) n := by
  cases t with
  | copyT a b =>
      by_cases h : env.copyOutcome a b
      · simp only [run_task, if_pos h]
        exact counterOf_le_increment s StatName.filesSynced n
      · simp only [run_task, if_neg h]
        exact le_refl _
  | deleteT a r =>
      by_cases h : env.deleteOutcome a
      · simp only [run_task, if_pos h]
        exact counterOf_le_increment s StatName.filesDeleted n
      · simp only [run_task, if_neg h]
        exact le_refl _

theorem counterOf_le_foldl_run (env : SyncEnv) (ts : List SyncTask) :
    ∀ (s : SyncStats) (n : StatName),
      counterOf s n ≤ counterOf (ts.foldl (run_task env) s) n := by
  induction ts with
  | nil => intro s n; exact le_refl _
  | cons t ts ih =>
      intro s n
      exact le_trans (counterOf_le_run_task env s t n) (ih _ n)

theorem counterOf_le_handle (env : SyncEnv) (s : SyncStats) (sp : Path)
    (tp : List Path) (n : StatName) :
    counterOf s n ≤ counterOf (handle_file_update env s sp tp).1 n := by
  unfold handle_file_update
  by_cases h : tp.filter env.pathExists = []
  · simp [h]
  · simp only [if_neg h]
    cases env.resolveWinner (sp :: tp.filter env.pathExists) with
    | error e => exact le_refl _
    | ok w =>
        dsimp only
        by_cases hw : w = sp
        · rw [if_pos hw]
          exact counterOf_le_increment s StatName.conflictsResolved n
        · rw [if_neg hw]
          exact counterOf_le_increment s StatName.conflictsResolved n

theorem counterOf_le_process (env : SyncEnv) (s : SyncStats) (k : ChangeKind)
    (sp : Path) (tp : List Path) (rel : Path) (n : StatName) :
    counterOf s n ≤ counterOf (process_change env s k sp tp rel).1 n := by
  cases k with
  | created => exact counterOf_le_handle env s sp tp n
  | modified => exact counterOf_le_handle env s sp tp n
  | deleted => exact le_refl _

theorem counterOf_le_sync_step (env : SyncEnv) (sd : Path) (td : List Path)
    (acc : SyncStats × List SyncTask) (chg : Path × ChangeKind) (n : StatName) :
    counterOf acc.1 n ≤ counterOf (sync_step env sd td acc chg).1 n := by
  obtain ⟨s, ts⟩ := acc
  obtain ⟨rel, kind⟩ := chg
  have h1 := counterOf_le_process env s kind (sd ++ rel)
    (td.map fun d => d ++ rel) rel n
  cases hpc : process_change env s kind (sd ++ rel)
      (td.map fun d => d ++ rel) rel with
  | mk st1 r =>
      rw [hpc] at h1
      cases r with
      | error e =>
          simp only [sync_step, hpc]
          exact le_trans h1 (counterOf_le_increment st1 StatName.failedOperations n)
      | ok l =>
          simp only [sync_step, hpc]
          exact le_trans h1 (counterOf_le_foldl_run env l st1 n)

theorem counterOf_le_sync_fold (env : SyncEnv) (sd : Path) (td : List Path)
    (changes : List (Path × ChangeKind)) :
    ∀ (acc : SyncStats × List SyncTask) (n : StatName),
      counterOf acc.1 n ≤
        counterOf (changes.foldl (sync_step env sd td) acc).1 n := by
  induction changes with
  | nil => intro acc n; exact le_refl _
  | cons chg rest ih =>
      intro acc n
      exact le_trans (counterOf_le_sync_step env sd td acc chg n) (ih _ n)

/-- Stamping the session timestamps does not touch the counters. -/
theorem counterOf_set_start (s : SyncStats) (v : Option Int) (n : StatName) :
    counterOf { s with start_time := v } n = counterOf s n := by
  cases n <;> rfl

theorem counterOf_set_end (s : SyncStats) (v : Option Int) (n : StatName) :
    counterOf { s with end_time := v } n = counterOf s n := by
  cases n <;> rfl

/-- C9: every mutation of the four session counters in the source goes
through `_increment_stat`, which (under the statistics lock, here the
sequentialized increment) adds exactly one to the named counter and
leaves the other three unchanged; consequently a whole sync session never
decreases any counter.  (The lock itself serializes the increments; the
embedding realizes that serialization as a fold over the session's
tasks.) -/
theorem C9_counters_monotone :
    (∀ (s : SyncStats) (n : StatName),
       counterOf (increment_stat s n) n = counterOf s n + 1 ∧
       ∀ m : StatName, m ≠ n → counterOf (increment_stat s n) m = counterOf s m) ∧
    (∀ (env : SyncEnv) (sd : Path) (td : List Path)
       (changes : List (Path × ChangeKind)) (s0 : SyncStats) (n : StatName),
       counterOf s0 n ≤ counterOf (sync_files env sd td changes s0).1 n) := by
  constructor
  · intro s n
    constructor
    · cases n <;> rfl
    · intro m hm
      cases n <;> cases m <;> first | rfl | exact absurd rfl hm
  · intro env sd td changes s0 n
    have h := counterOf_le_sync_fold env sd td changes
      ({ s0 with start_time := some env.now1 }, []) n
    rw [counterOf_set_start] at h
    have h2 : counterOf (sync_files env sd td changes s0).1 n =
        counterOf ((changes.foldl (sync_step env sd td)
          ({ s0 with start_time := some env.now1 }, [])).1) n := by
      cases n <;> rfl
    rw [h2]
    exact h

/-- Witness for C9: incrementing `files_synced` leaves `files_deleted`
unchanged on fresh statistics, and a concrete session only grows
`failed_operations`. -/
theorem C9_witness :
    counterOf (increment_stat stats0c StatName.filesSynced) StatName.filesDeleted =
      counterOf stats0c StatName.filesDeleted ∧
    counterOf stats0c StatName.failedOperations ≤
      counterOf (sync_files c4Env ["S"] [["T"]]
        [(["f"], ChangeKind.created)] stats0c).1 StatName.failedOperations :=
  ⟨(C9_counters_monotone.1 stats0c StatName.filesSynced).2 StatName.filesDeleted
      (by decide),
   C9_counters_monotone.2 c4Env ["S"] [["T"]] [(["f"], ChangeKind.created)] stats0c
     StatName.failedOperations⟩

/-! ## C3 -/

/-- C3: processing a Created/Modified entry.  With no existing target
copy, the source is copied to every target and no conflict resolution
happens.  With at least one existing copy, the resolver is invoked on the
source copy plus the existing target copies; if the source wins, the
source is copied to every target; if a target wins, the winner is copied
to the source and to every target path other than the winner — and the
winner is never a copy destination (for the source-wins case this uses
that the source path is not among the target paths, which holds in
`sync_files` since the target directories differ from the source
directory). -/
theorem C3_update_propagation (env : SyncEnv) (stats : SyncStats)
    (source_path : Path) (target_paths : List Path) :
    (target_paths.filter env.pathExists = [] →
       handle_file_update env stats source_path target_paths =
         (stats, Except.ok (target_paths.map fun t => (source_path, t)))) ∧
    (∀ winner : Path, target_paths.filter env.pathExists ≠ [] →
       env.resolveWinner (source_path :: target_paths.filter env.pathExists) =
         Except.ok winner →
       ((winner = source_path →
           handle_file_update env stats source_path target_paths =
             (increment_stat stats StatName.conflictsResolved,
              Except.ok (target_paths.map fun t => (source_path, t))) ∧
           (source_path ∉ target_paths →
              ∀ pr ∈ target_paths.map fun t => (source_path, t), pr.2 ≠ winner)) ∧
        (winner ≠ source_path →
           handle_file_update env stats source_path target_paths =
             (increment_stat stats StatName.conflictsResolved,
              Except.ok ((winner, source_path) ::
                (target_paths.filter (fun t => decide (t ≠ winner))).map
                  fun t => (winner, t))) ∧
           ∀ pr ∈ ((winner, source_path) ::
               (target_paths.filter (fun t => decide (t ≠ winner))).map
                 fun t => (winner, t)), pr.2 ≠ winner))) := by
  constructor
  · intro h
    unfold handle_file_update
    rw [if_pos h]
  · intro winner hne hres
    have heq : handle_file_update env stats source_path target_paths =
        (if winner = source_path then
          (increment_stat stats StatName.conflictsResolved,
           Except.ok (target_paths.map fun t => (source_path, t)))
        else
          (increment_stat stats StatName.conflictsResolved,
           Except.ok ((winner, source_path) ::
             (target_paths.filter (fun t => decide (t ≠ winner))).map
               fun t => (winner, t)))) := by
      unfold handle_file_update
      rw [if_neg hne, hres]
    constructor
    · intro hw
      refine ⟨by rw [heq, if_pos hw], ?_⟩
      intro hns pr hpr
      obtain ⟨t, ht, rfl⟩ := List.mem_map.mp hpr
      intro h2
      apply hns
      rw [← hw, ← h2]
      exact ht
    · intro hw
      refine ⟨by rw [heq, if_neg hw], ?_⟩
      intro pr hpr
      rcases List.mem_cons.mp hpr with hpr1 | hpr2
      · rw [hpr1]
        exact fun h2 => hw h2.symm
      · obtain ⟨t, ht, rfl⟩ := List.mem_map.mp hpr2
        have := (List.mem_filter.mp ht).2
        exact of_decide_eq_true this

/-- Witness for C3 at a session where exactly `T1/f` exists and the
resolver picks it: the winner is copied to the source and to `T2/f`, and
the winner itself is never a destination. -/
theorem C3_witness :
    handle_file_update c3Env stats0c ["S", "f"] [["T1", "f"], ["T2", "f"]] =
      (increment_stat stats0c StatName.conflictsResolved,
       Except.ok [(["T1", "f"], ["S", "f"]), (["T1", "f"], ["T2", "f"])]) ∧
    ∀ pr ∈ [(["T1", "f"], ["S", "f"]), (["T1", "f"], ["T2", "f"])],
      pr.2 ≠ (["T1", "f"] : Path) :=
  ⟨(((C3_update_propagation c3Env stats0c ["S", "f"]
        [["T1", "f"], ["T2", "f"]]).2 ["T1", "f"] (by decide) rfl).2 (by decide)).1,
   (((C3_update_propagation c3Env stats0c ["S", "f"]
        [["T1", "f"], ["T2", "f"]]).2 ["T1", "f"] (by decide) rfl).2 (by decide)).2⟩

/-! ## C6 -/

theorem insertDesc_ne_nil (x : Path × Int) (l : List (Path × Int)) :
    insertDesc x l ≠ [] := by
  cases l with
  | nil => simp [insertDesc]
  | cons y ys =>
      unfold insertDesc
      split <;> simp

theorem sortDesc_eq_nil {l : List (Path × Int)} (h : sortDesc l = []) : l = [] := by
  cases l with
  | nil => rfl
  | cons x xs => exact absurd h (insertDesc_ne_nil x (sortDesc xs))

/-- Head of the stable descending sort: its timestamp is the candidate's
own, it achieves the maximum, and every candidate listed before it has a
strictly smaller timestamp (equal timestamps keep their input order). -/
theorem sortDesc_head_spec (mtime : Path → Int) :
    ∀ (files : List Path) (w : Path × Int) (rest : List (Path × Int)),
      sortDesc (files.map fun f => (f, mtime f)) = w :: rest →
      w.2 = mtime w.1 ∧
      ∃ l1 l2, files = l1 ++ w.1 :: l2 ∧
        (∀ f ∈ l1, mtime f < w.2) ∧ ∀ f ∈ files, mtime f ≤ w.2 := by
  intro files
  induction files with
  | nil => intro w rest h; simp [sortDesc] at h
  | cons x xs ih =>
      intro w rest h
      rw [List.map_cons,
        show sortDesc ((x, mtime x) :: xs.map fun f => (f, mtime f)) =
          insertDesc (x, mtime x) (sortDesc (xs.map fun f => (f, mtime f))) from rfl] at h
      cases hs : sortDesc (xs.map fun f => (f, mtime f)) with
      | nil =>
          rw [hs] at h
          simp only [insertDesc] at h
          rw [List.cons.injEq] at h
          obtain ⟨h1, h2⟩ := h
          have hxs : xs = [] := List.map_eq_nil_iff.mp (sortDesc_eq_nil hs)
          subst hxs
          refine ⟨by rw [← h1], [], [], by rw [← h1]; rfl, by simp, ?_⟩
          intro f hf
          rw [List.mem_singleton] at hf
          subst hf
          rw [← h1]
      | cons w' rest' =>
          rw [hs] at h
          obtain ⟨hw'2, l1, l2, hdec, hlt, hle⟩ := ih w' rest' hs
          simp only [insertDesc] at h
          by_cases hx : mtime x < w'.2
          · rw [if_pos hx, List.cons.injEq] at h
            obtain ⟨h1, h2⟩ := h
            subst h1
            refine ⟨hw'2, x :: l1, l2, by rw [List.cons_append, hdec], ?_, ?_⟩
            · intro f hf
              rcases List.mem_cons.mp hf with hf1 | hf2
              · rw [hf1]; exact hx
              · exact hlt f hf2
            · intro f hf
              rcases List.mem_cons.mp hf with hf1 | hf2
              · rw [hf1]; exact le_of_lt hx
              · exact hle f hf2
          · rw [if_neg hx, List.cons.injEq] at h
            obtain ⟨h1, h2⟩ := h
            refine ⟨by rw [← h1], [], xs, by rw [← h1]; rfl, by simp, ?_⟩
            intro f hf
            rcases List.mem_cons.mp hf with hf1 | hf2
            · rw [hf1, ← h1]
            · rw [← h1]
              exact le_trans (hle f hf2) (le_of_not_lt hx)

/-- C6: `_resolve_by_timestamp` on a non-empty candidate list picks the
candidate with the largest modification timestamp, and among candidates
with equal largest timestamps the first-listed one (every earlier-listed
candidate is strictly older); the result is a pure function of the
candidate list and the timestamps, hence deterministic. -/
theorem C6_newest_wins (mtime : Path → Int) (files : List Path) (h : files ≠ []) :
    ∃ (w : Path) (losers : List Path),
      resolve_by_timestamp mtime files = some (w, losers) ∧
      ∃ l1 l2, files = l1 ++ w :: l2 ∧
        (∀ f ∈ l1, mtime f < mtime w) ∧ ∀ f ∈ files, mtime f ≤ mtime w := by
  cases hs : sortDesc (files.map fun f => (f, mtime f)) with
  | nil =>
      exact absurd (List.map_eq_nil_iff.mp (sortDesc_eq_nil hs)) h
  | cons w0 rest =>
      obtain ⟨hw2, l1, l2, hdec, hlt, hle⟩ := sortDesc_head_spec mtime files w0 rest hs
      refine ⟨w0.1, rest.map Prod.fst, ?_, l1, l2, hdec, ?_, ?_⟩
      · unfold resolve_by_timestamp
        rw [hs]
      · intro f hf; rw [← hw2]; exact hlt f hf
      · intro f hf; rw [← hw2]; exact hle f hf

/-- Witness for C6 at candidates `a`, `b`, `c` with timestamps 10/30/20:
the winner is `b`, the candidate with timestamp 30. -/
theorem C6_witness :
    ∃ (w : Path) (losers : List Path),
      resolve_by_timestamp mtimeW [["a"], ["b"], ["c"]] = some (w, losers) ∧
      ∃ l1 l2, ([["a"], ["b"], ["c"]] : List Path) = l1 ++ w :: l2 ∧
        (∀ f ∈ l1, mtimeW f < mtimeW w) ∧
        ∀ f ∈ ([["a"], ["b"], ["c"]] : List Path), mtimeW f ≤ mtimeW w :=
  C6_newest_wins mtimeW [["a"], ["b"], ["c"]] (by decide)

/-! ## C7 -/

theorem resolve_by_timestamp_isSome (mtime : Path → Int) (files : List Path)
    (h : files ≠ []) : (resolve_by_timestamp mtime files).isSome := by
  cases hs : sortDesc (files.map fun f => (f, mtime f)) with
  | nil => exact absurd (List.map_eq_nil_iff.mp (sortDesc_eq_nil hs)) h
  | cons w rest =>
      unfold resolve_by_timestamp
      rw [hs]
      rfl

/-- C7: `resolve_conflict` raises (ValueError or FileNotFoundError) if and
only if fewer than two candidate paths are supplied or some supplied
candidate does not currently exist — the validation precedes the policy
dispatch, so this holds for both policies — and on such a failure no
winner is produced and nothing is written to the resolution log. -/
theorem C7_resolution_failure (pol : ResolutionPolicy) (env : ResolverEnv)
    (files : List Path) :
    ((∃ e lg, resolve_conflict pol env files = some (Except.error e, lg)) ↔
      (files.length < 2 ∨ ∃ f ∈ files, env.pathExists f = false)) ∧
    ∀ (e : ResolveErr) (lg : List String),
      resolve_conflict pol env files = some (Except.error e, lg) → lg = [] := by
  by_cases h1 : files.length < 2
  · constructor
    · constructor
      · intro _
        exact Or.inl h1
      · intro _
        exact ⟨ResolveErr.valueError, [], by unfold resolve_conflict; rw [if_pos h1]⟩
    · intro e lg hres
      unfold resolve_conflict at hres
      rw [if_pos h1] at hres
      have h2 : (Except.error ResolveErr.valueError, ([] : List String)) =
          (Except.error e, lg) := Option.some.inj hres
      exact (congrArg Prod.snd h2).symm
  · by_cases h2 : files.all env.pathExists
    · have hkey : ∀ (e : ResolveErr) (lg : List String),
          resolve_conflict pol env files ≠ some (Except.error e, lg) := by
        intro e lg
        unfold resolve_conflict
        rw [if_neg h1, if_neg (fun hc => hc h2)]
        cases pol with
        | newestWins =>
            cases hrt : resolve_by_timestamp env.mtime files with
            | none => exact fun hc => Option.noConfusion hc
            | some wl =>
                intro hc
                have := Option.some.inj hc
                exact Except.noConfusion (congrArg Prod.fst this)
        | manual =>
            cases hrm : resolve_manually files env.fuel env.choices with
            | none => exact fun hc => Option.noConfusion hc
            | some wl =>
                intro hc
                have := Option.some.inj hc
                exact Except.noConfusion (congrArg Prod.fst this)
      constructor
      · constructor
        · intro ⟨e, lg, heq⟩
          exact absurd heq (hkey e lg)
        · intro hor
          rcases hor with h1' | ⟨f, hf, hfe⟩
          · exact absurd h1' h1
          · have := List.all_eq_true.mp h2 f hf
            rw [hfe] at this
            exact Bool.noConfusion this
      · intro e lg heq
        exact absurd heq (hkey e lg)
    · have hres : resolve_conflict pol env files =
          some (Except.error ResolveErr.fileNotFoundError, []) := by
        unfold resolve_conflict
        rw [if_neg h1, if_pos h2]
      have hex : ∃ f ∈ files, env.pathExists f = false := by
        rw [List.all_eq_true] at h2
        push_neg at h2
        obtain ⟨f, hf, hfe⟩ := h2
        exact ⟨f, hf, by simpa using hfe⟩
      constructor
      · constructor
        · intro _
          exact Or.inr hex
        · intro _
          exact ⟨ResolveErr.fileNotFoundError, [], hres⟩
      · intro e lg heq
        rw [hres] at heq
        have h3 : (Except.error ResolveErr.fileNotFoundError, ([] : List String)) =
            (Except.error e, lg) := Option.some.inj heq
        exact (congrArg Prod.snd h3).symm

/-- Witness for C7: a single-candidate (empty) list fails with an
invalid-input error. -/
theorem C7_witness :
    ∃ e lg, resolve_conflict ResolutionPolicy.newestWins
      ⟨fun _ => true, fun _ => 0, fun _ => 1, 1⟩ [] =
        some (Except.error e, lg) :=
  ((C7_resolution_failure ResolutionPolicy.newestWins
      ⟨fun _ => true, fun _ => 0, fun _ => 1, 1⟩ []).1).mpr (Or.inl (by decide))

/-! ## C2 -/

/-- A file on disk that is not yet in the snapshot is classified created
during the walk. -/
theorem scanWalk_created :
    ∀ (disk : List DiskFile) (meta : Snapshot) (p : Path),
      alookup meta p = none → (∃ f ∈ disk, f.path = p) →
      (p, ChangeKind.created) ∈ (scanWalk meta disk).2
  | [], meta, p, hm, hex => by
      obtain ⟨f, hf, _⟩ := hex
      exact absurd hf (List.not_mem_nil f)
  | g :: rest, meta, p, hm, hex => by
      by_cases hgp : g.path = p
      · have hmg : alookup meta g.path = none := by rw [hgp]; exact hm
        simp only [scanWalk, hmg]
        rw [← hgp]
        exact List.mem_cons_self _ _
      · have hrest : ∃ f ∈ rest, f.path = p := by
          obtain ⟨f, hf, hfp⟩ := hex
          rcases List.mem_cons.mp hf with rfl | hf2
          · exact absurd hfp hgp
          · exact ⟨f, hf2, hfp⟩
        have hne : p ≠ g.path := fun h => hgp h.symm
        cases hmg : alookup meta g.path with
        | none =>
            simp only [scanWalk, hmg]
            refine List.mem_cons_of_mem _ (scanWalk_created rest _ p ?_ hrest)
            rw [alookup_append_single _ _ _ _ hne]
            exact hm
        | some old =>
            by_cases hh : g.hash ≠ old.hash
            · simp only [scanWalk, hmg, if_pos hh]
              refine List.mem_cons_of_mem _ (scanWalk_created rest _ p ?_ hrest)
              rw [alookup_aupdate_ne _ _ _ _ hne]
              exact hm
            · simp only [scanWalk, hmg, if_neg hh]
              exact scanWalk_created rest meta p hm hrest

/-- The walk neither emits a change for nor alters the snapshot entry of a
path that is not on disk. -/
theorem scanWalk_not_on_disk :
    ∀ (disk : List DiskFile) (meta : Snapshot) (p : Path),
      (∀ f ∈ disk, f.path ≠ p) →
      (∀ k, (p, k) ∉ (scanWalk meta disk).2) ∧
        alookup (scanWalk meta disk).1 p = alookup meta p
  | [], meta, p, _ => by
      refine ⟨fun k hk => ?_, rfl⟩
      simp [scanWalk] at hk
  | g :: rest, meta, p, h => by
      have hg : g.path ≠ p := h g (List.mem_cons_self g rest)
      have hne : p ≠ g.path := fun h' => hg h'.symm
      have hr : ∀ f ∈ rest, f.path ≠ p := fun f hf => h f (List.mem_cons_of_mem g hf)
      cases hmg : alookup meta g.path with
      | none =>
          obtain ⟨ih1, ih2⟩ := scanWalk_not_on_disk rest
            (meta ++ [(g.path, ⟨g.hash, g.mtime⟩)]) p hr
          simp only [scanWalk, hmg]
          constructor
          · intro k hk
            rcases List.mem_cons.mp hk with h1 | h2
            · exact hg (congrArg Prod.fst h1).symm
            · exact ih1 k h2
          · rw [ih2, alookup_append_single _ _ _ _ hne]
      | some old =>
          by_cases hh : g.hash ≠ old.hash
          · obtain ⟨ih1, ih2⟩ := scanWalk_not_on_disk rest
              (aupdate meta g.path ⟨g.hash, g.mtime⟩) p hr
            simp only [scanWalk, hmg, if_pos hh]
            constructor
            · intro k hk
              rcases List.mem_cons.mp hk with h1 | h2
              · exact hg (congrArg Prod.fst h1).symm
              · exact ih1 k h2
            · rw [ih2, alookup_aupdate_ne _ _ _ _ hne]
          · obtain ⟨ih1, ih2⟩ := scanWalk_not_on_disk rest meta p hr
            simp only [scanWalk, hmg, if_neg hh]
            exact ⟨ih1, ih2⟩

/-- A tracked file on disk whose current hash differs from the stored one
is classified modified during the walk. -/
theorem scanWalk_modified :
    ∀ (disk : List DiskFile) (meta : Snapshot) (f : DiskFile) (r : FileRecord),
      f ∈ disk → alookup meta f.path = some r → f.hash ≠ r.hash →
      (disk.map DiskFile.path).Nodup →
      (f.path, ChangeKind.modified) ∈ (scanWalk meta disk).2
  | [], meta, f, r, hf, _, _, _ => absurd hf (List.not_mem_nil f)
  | g :: rest, meta, f, r, hf, hm, hh, hnd => by
      rcases List.mem_cons.mp hf with rfl | hf2
      · simp only [scanWalk, hm, if_pos hh]
        exact List.mem_cons_self _ _
      · have hgf : g.path ≠ f.path := by
          intro he
          have h1 : f.path ∈ rest.map DiskFile.path := List.mem_map_of_mem _ hf2
          have h2 : g.path ∉ rest.map DiskFile.path :=
            (List.nodup_cons.mp (by simpa using hnd)).1
          rw [he] at h2
          exact h2 h1
        have hne : f.path ≠ g.path := fun h' => hgf h'.symm
        have hnd2 : (rest.map DiskFile.path).Nodup :=
          (List.nodup_cons.mp (by simpa using hnd)).2
        cases hmg : alookup meta g.path with
        | none =>
            simp only [scanWalk, hmg]
            refine List.mem_cons_of_mem _ (scanWalk_modified rest _ f r hf2 ?_ hh hnd2)
            rw [alookup_append_single _ _ _ _ hne]
            exact hm
        | some old =>
            by_cases hho : g.hash ≠ old.hash
            · simp only [scanWalk, hmg, if_pos hho]
              refine List.mem_cons_of_mem _ (scanWalk_modified rest _ f r hf2 ?_ hh hnd2)
              rw [alookup_aupdate_ne _ _ _ _ hne]
              exact hm
            · simp only [scanWalk, hmg, if_neg hho]
              exact scanWalk_modified rest meta f r hf2 hm hh hnd2

/-- A tracked file on disk whose current hash equals the stored one yields
no change entry during the walk, and its snapshot entry (including the
stored modification time) is untouched. -/
theorem scanWalk_unchanged :
    ∀ (disk : List DiskFile) (meta : Snapshot) (f : DiskFile) (r : FileRecord),
      f ∈ disk → alookup meta f.path = some r → f.hash = r.hash →
      (disk.map DiskFile.path).Nodup →
      (∀ k, (f.path, k) ∉ (scanWalk meta disk).2) ∧
        alookup (scanWalk meta disk).1 f.path = some r
  | [], meta, f, r, hf, _, _, _ => absurd hf (List.not_mem_nil f)
  | g :: rest, meta, f, r, hf, hm, hh, hnd => by
      rcases List.mem_cons.mp hf with rfl | hf2
      · have hho : ¬ f.hash ≠ r.hash := fun hc => hc hh
        simp only [scanWalk, hm, if_neg hho]
        have hrest : ∀ g' ∈ rest, g'.path ≠ f.path := by
          intro g' hg' he
          have h1 : f.path ∈ rest.map DiskFile.path := he ▸ List.mem_map_of_mem _ hg'
          have h2 : f.path ∉ rest.map DiskFile.path :=
            (List.nodup_cons.mp (by simpa using hnd)).1
          exact h2 h1
        obtain ⟨h1, h2⟩ := scanWalk_not_on_disk rest meta f.path hrest
        exact ⟨h1, by rw [h2]; exact hm⟩
      · have hgf : g.path ≠ f.path := by
          intro he
          have h1 : f.path ∈ rest.map DiskFile.path := List.mem_map_of_mem _ hf2
          have h2 : g.path ∉ rest.map DiskFile.path :=
            (List.nodup_cons.mp (by simpa using hnd)).1
          rw [he] at h2
          exact h2 h1
        have hne : f.path ≠ g.path := fun h' => hgf h'.symm
        have hnd2 : (rest.map DiskFile.path).Nodup :=
          (List.nodup_cons.mp (by simpa using hnd)).2
        cases hmg : alookup meta g.path with
        | none =>
            obtain ⟨ih1, ih2⟩ := scanWalk_unchanged rest
              (meta ++ [(g.path, ⟨g.hash, g.mtime⟩)]) f r hf2
              (by rw [alookup_append_single _ _ _ _ hne]; exact hm) hh hnd2
            simp only [scanWalk, hmg]
            refine ⟨fun k hk => ?_, ih2⟩
            rcases List.mem_cons.mp hk with h1 | h2
            · exact hgf (congrArg Prod.fst h1).symm
            · exact ih1 k h2
        | some old =>
            by_cases hho : g.hash ≠ old.hash
            · obtain ⟨ih1, ih2⟩ := scanWalk_unchanged rest
                (aupdate meta g.path ⟨g.hash, g.mtime⟩) f r hf2
                (by rw [alookup_aupdate_ne _ _ _ _ hne]; exact hm) hh hnd2
              simp only [scanWalk, hmg, if_pos hho]
              refine ⟨fun k hk => ?_, ih2⟩
              rcases List.mem_cons.mp hk with h1 | h2
              · exact hgf (congrArg Prod.fst h1).symm
              · exact ih1 k h2
            · simp only [scanWalk, hmg, if_neg hho]
              exact scanWalk_unchanged rest meta f r hf2 hm hh hnd2

/-- Lookup in a key-filtered association list at a key the filter
rejects. -/
theorem alookup_filter_keys {α : Type} (l : List (Path × α)) (pred : Path → Bool)
    (p : Path) (hp : pred p = false) :
    alookup (l.filter (fun e => pred e.1)) p = none := by
  induction l with
  | nil => rfl
  | cons hd tl ih =>
      obtain ⟨k, v⟩ := hd
      by_cases hk : pred k = true
      · have hkp : ¬ k = p := by
          intro h
          rw [h, hp] at hk
          exact Bool.noConfusion hk
        simp [List.filter_cons, hk, alookup, hkp, ih]
      · simp [List.filter_cons, hk, ih]

/-- C2: the classification of one scan of a replica (disk paths are
distinct, as `os.walk` yields each file once).  A file on disk but absent
from the snapshot is classified Created; a tracked file on disk with a
differing fingerprint is classified Modified; a tracked file absent from
disk is classified Deleted and its snapshot entry removed; a tracked file
on disk with an equal fingerprint produces no change entry — regardless of
its current modification time, which the embedding leaves completely
unconstrained relative to the stored one. -/
theorem C2_change_classification (meta : Snapshot) (disk : List DiskFile)
    (hnd : (disk.map DiskFile.path).Nodup) :
    (∀ f ∈ disk, alookup meta f.path = none →
       (f.path, ChangeKind.created) ∈ (scan_directories meta disk).2) ∧
    (∀ f ∈ disk, ∀ r : FileRecord, alookup meta f.path = some r →
       f.hash ≠ r.hash →
       (f.path, ChangeKind.modified) ∈ (scan_directories meta disk).2) ∧
    (∀ (p : Path) (r : FileRecord), alookup meta p = some r →
       (∀ f ∈ disk, f.path ≠ p) →
       (p, ChangeKind.deleted) ∈ (scan_directories meta disk).2 ∧
         alookup (scan_directories meta disk).1 p = none) ∧
    (∀ f ∈ disk, ∀ r : FileRecord, alookup meta f.path = some r →
       f.hash = r.hash →
       ∀ k, (f.path, k) ∉ (scan_directories meta disk).2) := by
  refine ⟨?_, ?_, ?_, ?_⟩
  · intro f hf hm
    simp only [scan_directories]
    exact List.mem_append_left _ (scanWalk_created disk meta f.path hm ⟨f, hf, rfl⟩)
  · intro f hf r hm hh
    simp only [scan_directories]
    exact List.mem_append_left _ (scanWalk_modified disk meta f r hf hm hh hnd)
  · intro p r hm hnod
    obtain ⟨h1, h2⟩ := scanWalk_not_on_disk disk meta p hnod
    have hlk : alookup (scanWalk meta disk).1 p = some r := by rw [h2]; exact hm
    have hkeys : p ∈ (scanWalk meta disk).1.map Prod.fst :=
      mem_keys_of_alookup _ p r hlk
    have hnotex : p ∉ disk.map DiskFile.path := by
      intro hmem
      obtain ⟨f, hf, hfp⟩ := List.mem_map.mp hmem
      exact hnod f hf hfp
    constructor
    · simp only [scan_directories]
      refine List.mem_append_right _ ?_
      refine List.mem_map.mpr ⟨p, ?_, rfl⟩
      exact List.mem_filter.mpr ⟨hkeys, decide_eq_true hnotex⟩
    · simp only [scan_directories]
      exact alookup_filter_keys _ (fun q => decide (q ∈ disk.map DiskFile.path)) p
        (decide_eq_false hnotex)
  · intro f hf r hm hh k hk
    simp only [scan_directories] at hk
    rcases List.mem_append.mp hk with hk1 | hk2
    · exact (scanWalk_unchanged disk meta f r hf hm hh hnd).1 k hk1
    · obtain ⟨q, hq, heq⟩ := List.mem_map.mp hk2
      have hqp : q = f.path := congrArg Prod.fst heq
      have hqf := (List.mem_filter.mp hq).2
      have hq2 : q ∉ disk.map DiskFile.path := of_decide_eq_true hqf
      rw [hqp] at hq2
      exact hq2 (List.mem_map_of_mem _ hf)

/-- Witness for C2: scanning an empty snapshot against one on-disk file
classifies it Created. -/
theorem C2_witness :
    (((["a"] : Path), ChangeKind.created) ∈
      (scan_directories [] [⟨["a"], "h1", 0⟩]).2) :=
  (C2_change_classification [] [⟨["a"], "h1", 0⟩] (by decide)).1
    ⟨["a"], "h1", 0⟩ (by decide) rfl

end Syncdirs
